import Mathlib

/-!
Shallow embedding of the smalljson library (src/smalljson/smalljson.cc,
src/smalljson/smalljson.h) in Lean 4.

Strings are modelled as `List Char`.  The C++ code walks a
`std::string::const_iterator` cursor `cur_` up to `end_`; we model the
cursor state by the remaining suffix of the input.  Several places in the
source dereference `*cur_` when `cur_ == end_` (e.g. `parseStart` line 143
compares `*cur_` against the terminating `'\0'`); `std::string` guarantees a
null terminator at `data() + size()`, so the model's `peek` returns `'\x00'`
on the empty suffix.
-/

namespace Smalljson

/-- The seven-entry escape table of `escapeJson` (smalljson.cc lines 358-392).
The imperative loop replaces one character by a two-character sequence and
then advances past both inserted characters (`idx++` in the branch plus the
loop increment), so each input character is transformed independently.
NOTE the source's `case '\f':` sets `replaceIdx = 6` but then falls through
into `default: continue;`, so a form feed is never actually replaced; the
model reproduces that fall-through. -/
def escChar (c : Char) : List Char :=
  if c = '\n' then ['\\', 'n']
  else if c = '\t' then ['\\', 't']
  else if c = '\\' then ['\\', '\\']
  else if c = '\x08' then ['\\', 'b']
  else if c = '\r' then ['\\', 'r']
  else if c = '"' then ['\\', '"']
  else [c]

/-- `escapeJson` (smalljson.cc lines 358-392): per-character replacement,
see `escChar`. -/
def escapeJson (s : List Char) : List Char :=
  (s.map escChar).flatten

/-- The second character of an escape sequence as decoded by `unescapeJson`
(smalljson.cc lines 394-428).  The source initializes `replaceIdx = 0` and
its `default:` case merely breaks, so every unrecognized escape (for example
`\u` or `\x`) is replaced by `replaceStr[0]`, i.e. a newline. -/
def unescChar (d : Char) : Char :=
  if d = 'n' then '\n'
  else if d = 't' then '\t'
  else if d = '\\' then '\\'
  else if d = 'b' then '\x08'
  else if d = 'r' then '\r'
  else if d = '"' then '"'
  else if d = 'f' then '\x0C'
  else '\n'

/-- `unescapeJson` (smalljson.cc lines 394-428).  The loop finds a backslash
at `idx`, decodes `str[idx + 1]` (see `unescChar`), replaces the two
characters by the one-character decoding and moves past it.  When the
backslash is the last character, `str[idx + 1]` reads the terminating null
(legal for `std::string::operator[]` at `size()`) and `replace(idx, 2, ...)`
clamps, so a trailing backslash becomes a lone newline. -/
def unescapeJson : List Char → List Char
  | [] => []
  | c :: rest =>
    if c = '\\' then
      match rest with
      | [] => ['\n']
      | d :: rest2 => unescChar d :: unescapeJson rest2
    else c :: unescapeJson rest

/-- `Value::ValueType` (smalljson.h lines 20-27). -/
inductive ValueType where
  | Array
  | Object
  | Null
  | Boolean
  | String
  | Number
deriving DecidableEq

mutual
/-- `Value` (smalljson.h lines 14-85): a recorded type tag `type_` next to a
variant `value_data_`.  In the C++ the two fields are independent; the model
keeps them as two separate constructor arguments for the same reason. -/
inductive Value where
  | mk (type_ : ValueType) (value_data_ : ValueData)

/-- `Value::value_t = std::variant<std::string, array_ptr, object_ptr>`
(smalljson.h line 18).  `arr`/`obj` hold the pointed-to container contents
(ownership is exclusive, so the indirection itself is immaterial). -/
inductive ValueData where
  | str (s : List Char)
  | arr (a : ValueList)
  | obj (o : EntryList)

/-- Contents of `Array::array_t = std::vector<Value>` (smalljson.h line 153). -/
inductive ValueList where
  | nil
  | cons (v : Value) (rest : ValueList)

/-- Contents of `Object::object_t = std::map<std::string, Value>`
(smalljson.h line 89), kept as a key-sorted association list to mirror the
ordered map. -/
inductive EntryList where
  | nil
  | cons (k : List Char) (v : Value) (rest : EntryList)
end

/-- `std::less<std::string>`: lexicographic comparison by character code. -/
def ltKey : List Char → List Char → Bool
  | [], [] => false
  | [], _ :: _ => true
  | _ :: _, [] => false
  | a :: as, b :: bs =>
    if a.val < b.val then true
    else if b.val < a.val then false
    else ltKey as bs

/-- `std::map::emplace` (used at smalljson.cc line 178): inserts at the
key-ordered position, and does nothing when the key is already present
(emplace never overwrites an existing entry). -/
def EntryList.emplace : EntryList → List Char → Value → EntryList
  | .nil, k, v => .cons k v .nil
  | .cons k0 v0 rest, k, v =>
    if ltKey k k0 then .cons k v (.cons k0 v0 rest)
    else if ltKey k0 k then .cons k0 v0 (EntryList.emplace rest k v)
    else .cons k0 v0 rest

/-- `std::map::find`/`at` key lookup. -/
def EntryList.lookup : EntryList → List Char → Option Value
  | .nil, _ => none
  | .cons k0 v0 rest, k => if k0 = k then some v0 else EntryList.lookup rest k

/-- Helper predicate for the `std::map` representation invariant: `k` is
strictly below every key of the list. -/
def EntryList.ltAll (k : List Char) : EntryList → Bool
  | .nil => true
  | .cons k1 _ rest => ltKey k k1 && EntryList.ltAll k rest

/-- The `std::map` representation invariant: strictly increasing keys.
Every map the parser builds starts from the empty map and grows only
through `EntryList.emplace`, which preserves this invariant. -/
def EntryList.sortedB : EntryList → Bool
  | .nil => true
  | .cons k _ rest => EntryList.ltAll k rest && EntryList.sortedB rest

/-- `std::vector::at` index lookup. -/
def ValueList.get : ValueList → Nat → Option Value
  | .nil, _ => none
  | .cons v _, 0 => some v
  | .cons _ rest, n + 1 => ValueList.get rest n

/-- `std::vector::push_back` (`emplace_back`, smalljson.cc line 204). -/
def ValueList.push : ValueList → Value → ValueList
  | .nil, v => .cons v .nil
  | .cons v0 rest, v => .cons v0 (ValueList.push rest v)

mutual
/-- `Value::to_string` (smalljson.cc lines 44-60).  `none` models a thrown
exception: `std::get` on a non-active alternative throws
`std::bad_variant_access` (the `default:` arm, which throws NOT_JSON, is
unreachable because the switch covers all six enumerators).  Note the
String case returns the stored payload verbatim between quotes — it does
NOT call `escapeJson`.  The Object/Array cases are the bodies of
`Object::to_string` (smalljson.cc lines 100-108) and `Array::to_string`
(smalljson.cc lines 116-124), inlined here so the recursion is structural:
open bracket, the rendered members each followed by a comma, then
`str.pop_back()` — which removes the trailing comma, or, when the
container is empty, the opening bracket itself — then the close bracket. -/
def Value.to_string : Value → Option (List Char)
  | .mk .Null _ => some ("null".toList)
  | .mk .Boolean (.str s) => some s
  | .mk .Number (.str s) => some s
  | .mk .String (.str s) => some ('"' :: (s ++ ['"']))
  | .mk .Object (.obj o) =>
    match Object.renderEntries o with
    | none => none
    | some body => some ((('\x7b' :: body).dropLast) ++ ['\x7d'])
  | .mk .Array (.arr a) =>
    match Array.renderElems a with
    | none => none
    | some body => some ((('[' :: body).dropLast) ++ [']'])
  | .mk _ _ => none

/-- The loop body of `Object::to_string` (smalljson.cc lines 102-104):
each entry renders as `"key":value,` with the key passed through
`escapeJson`. -/
def Object.renderEntries : EntryList → Option (List Char)
  | .nil => some []
  | .cons k v rest =>
    match Value.to_string v with
    | none => none
    | some vs =>
      match Object.renderEntries rest with
      | none => none
      | some rs =>
        some (('"' :: escapeJson k ++ ['"', ':']) ++ vs ++ [','] ++ rs)

/-- The loop body of `Array::to_string` (smalljson.cc lines 118-120). -/
def Array.renderElems : ValueList → Option (List Char)
  | .nil => some []
  | .cons v rest =>
    match Value.to_string v with
    | none => none
    | some vs =>
      match Array.renderElems rest with
      | none => none
      | some rs => some (vs ++ [','] ++ rs)
end

/-- `Exception::ParseError` (smalljson.h lines 148-163). -/
inductive ParseError where
  | NOT_JSON
  | ROOT_NOT_ONE
  | MISS_COLON
  | MISS_VALUE
  | LACK_COMMA_OR_BRACE
  | LACK_COMMA_OR_BRACKET
  | BAD_KEY
  | BAD_VALUE
  | JSON_LENGTH
  | BAD_ESCAPE
  | BAD_BOOLEAN
  | BAD_NULL
  | BAD_NUMBER
  | BAD_TYPE
deriving DecidableEq

/-- `*cur_` with the null-terminator convention of `std::string` (the source
dereferences the iterator at `end_`, e.g. smalljson.cc line 143). -/
def peek : List Char → Char
  | [] => '\x00'
  | c :: _ => c

/-- The whitespace set of `Parser::skipWhiteSpace` (smalljson.cc line 150). -/
def isWS (c : Char) : Bool :=
  c = ' ' || c = '\n' || c = '\r' || c = '\t'

/-- `Parser::skipWhiteSpace` (smalljson.cc lines 148-152). -/
def skipWhiteSpace (s : List Char) : List Char :=
  s.dropWhile isWS

/-- `Parser::skipDigit` (smalljson.cc lines 154-157); `std::isdigit` on the
default locale accepts exactly the decimal digits. -/
def skipDigit (s : List Char) : List Char :=
  s.dropWhile Char.isDigit

/-- The escape characters accepted inside a string literal
(`Parser::parseRawString`, smalljson.cc lines 251-260). -/
def isEscChar (c : Char) : Bool :=
  c = '"' || c = '\\' || c = '/' || c = 't' || c = 'r' || c = 'n' ||
    c = 'u' || c = 'b' || c = 'f'

/-- The scanning loop of `Parser::parseRawString` (smalljson.cc lines
246-277).  `acc` is the text accumulated between `old_cur` and the cursor.
The loop runs while `cur_ != end_`; reaching the end without a closing quote
falls out to the `JSON_LENGTH` check.  When the closing quote is consumed,
the same `if (cur_ == end_)` check still runs, so a string whose closing
quote is the very last input character is also rejected with JSON_LENGTH. -/
def rawStringLoop : List Char → List Char → Except ParseError (List Char × List Char)
  | _, [] => .error .JSON_LENGTH
  | acc, c :: rest =>
    if c = '\\' then
      match rest with
      | [] => .error .BAD_ESCAPE
      | d :: rest2 =>
        if isEscChar d then rawStringLoop (acc ++ ['\\', d]) rest2
        else .error .BAD_ESCAPE
    else if c = '"' then
      match rest with
      | [] => .error .JSON_LENGTH
      | _ :: _ => .ok (acc, rest)
    else rawStringLoop (acc ++ [c]) rest

/-- `Parser::parseRawString` (smalljson.cc lines 240-278): requires an
opening quote (else BAD_KEY), then scans; returns the raw, still-escaped
text between the quotes together with the rest of the input. -/
def parseRawString (s : List Char) : Except ParseError (List Char × List Char) :=
  if peek s = '"' then rawStringLoop [] s.tail
  else .error .BAD_KEY

/-- `Parser::parseString` (smalljson.cc lines 280-283): the raw string is
stored as the String payload unchanged — `unescapeJson` is NOT applied. -/
def parseString (s : List Char) : Except ParseError (Value × List Char) :=
  match parseRawString s with
  | .error e => .error e
  | .ok (raw, rest) => .ok (Value.mk .String (.str raw), rest)

/-- `Parser::parseBoolean` (smalljson.cc lines 285-308): compares the next
four (resp. five) characters against `true` (resp. `false`), clamping at
end-of-input, and stores the literal text as the Boolean payload. -/
def parseBoolean (s : List Char) : Except ParseError (Value × List Char) :=
  if peek s = 't' then
    if s.take 4 = "true".toList then
      .ok (Value.mk .Boolean (.str ("true".toList)), s.drop 4)
    else .error .BAD_BOOLEAN
  else if peek s = 'f' then
    if s.take 5 = "false".toList then
      .ok (Value.mk .Boolean (.str ("false".toList)), s.drop 5)
    else .error .BAD_BOOLEAN
  else .error .BAD_BOOLEAN

/-- `Parser::parseNull` (smalljson.cc lines 310-319): on `null` returns
`Value()` — type tag Null with the default-constructed variant, i.e. the
empty string alternative. -/
def parseNull (s : List Char) : Except ParseError (Value × List Char) :=
  if s.take 4 = "null".toList then
    .ok (Value.mk .Null (.str []), s.drop 4)
  else .error .BAD_NULL

/-- The exponent arm of `Parser::parseNumber` (smalljson.cc lines 339-351):
`cur_` already past the `e`/`E`; reject at end-of-input, skip an optional
sign, require a digit, then skip digits. -/
def parseNumberExp (s : List Char) (s3 : List Char) : Except ParseError (Value × List Char) :=
  if s3.isEmpty then .error .BAD_NUMBER
  else
    let s4 := if peek s3 = '+' || peek s3 = '-' then s3.tail else s3
    if ¬ (peek s4).isDigit then .error .BAD_NUMBER
    else
      let s5 := skipDigit s4
      .ok (Value.mk .Number (.str (s.take (s.length - s5.length))), s5)

/-- `Parser::parseNumber` (smalljson.cc lines 321-356).  The number's text
is the exact consumed substring `[old_cur, cur_)`, recovered here as
`s.take (s.length - rest.length)`. -/
def parseNumber (s : List Char) : Except ParseError (Value × List Char) :=
  let s1 := if peek s = '-' then s.tail else s
  if ¬ (peek s1).isDigit then .error .BAD_NUMBER
  else if peek s1 = '0' && (peek s1.tail).isDigit then .error .BAD_NUMBER
  else
    let s2 := skipDigit s1
    match peek s2 with
    | '.' =>
      let s3 := skipDigit s2.tail
      .ok (Value.mk .Number (.str (s.take (s.length - s3.length))), s3)
    | 'e' =>
      parseNumberExp s s2.tail
    | 'E' =>
      parseNumberExp s s2.tail
    | _ =>
      .ok (Value.mk .Number (.str (s.take (s.length - s2.length))), s2)

mutual
/-- `Parser::parseValue` (smalljson.cc lines 217-238): dispatch on the
lookahead character.  `fuel` bounds the recursion depth of the model; every
recursive call decrements it, a function entered with zero fuel reports
JSON_LENGTH, and the top-level entry point supplies more fuel than any
input can consume, making that branch unreachable. -/
def parseValueF : Nat → List Char → Except ParseError (Value × List Char)
  | 0, _ => .error .JSON_LENGTH
  | f + 1, s =>
    match peek s with
    | 't' => parseBoolean s
    | 'f' => parseBoolean s
    | 'n' => parseNull s
    | '"' => parseString s
    | '[' => parseArrayF f s
    | '\x7b' => parseObjectF f s
    | c =>
      if c = '-' || c.isDigit then parseNumber s
      else .error .BAD_VALUE
termination_by structural fuel => fuel

/-- `Parser::parseObject` (smalljson.cc lines 159-189): consume `\x7b`
(asserted by the caller's dispatch), skip whitespace, return the empty
object on `\x7d`, otherwise run the member loop. -/
def parseObjectF : Nat → List Char → Except ParseError (Value × List Char)
  | 0, _ => .error .JSON_LENGTH
  | f + 1, s =>
    let s1 := skipWhiteSpace s.tail
    if peek s1 = '\x7d' then .ok (Value.mk .Object (.obj .nil), s1.tail)
    else objLoop f .nil s1
termination_by structural fuel => fuel

/-- The `while (true)` member loop of `Parser::parseObject` (smalljson.cc
lines 168-187): key via `parseRawString`, `:` (else MISS_COLON), value via
`parseValue`, then `object_data.emplace(unescapeJson(key), value)` — note
the key is unescaped and `emplace` keeps an existing entry — then `,` to
continue or `\x7d` to finish (else LACK_COMMA_OR_BRACE). -/
def objLoop : Nat → EntryList → List Char → Except ParseError (Value × List Char)
  | 0, _, _ => .error .JSON_LENGTH
  | f + 1, data, s =>
    let s1 := skipWhiteSpace s
    match parseRawString s1 with
    | .error e => .error e
    | .ok (key, s2) =>
      let s3 := skipWhiteSpace s2
      if peek s3 = ':' then
        match parseValueF f (skipWhiteSpace s3.tail) with
        | .error e => .error e
        | .ok (value, s4) =>
          let s5 := skipWhiteSpace s4
          let data1 := EntryList.emplace data (unescapeJson key) value
          if peek s5 = ',' then objLoop f data1 s5.tail
          else if peek s5 = '\x7d' then
            .ok (Value.mk .Object (.obj data1), s5.tail)
          else .error .LACK_COMMA_OR_BRACE
      else .error .MISS_COLON
termination_by structural fuel => fuel

/-- `Parser::parseArray` (smalljson.cc lines 191-215): consume `[`, skip
whitespace, return the empty array on `]`, otherwise run the element
loop. -/
def parseArrayF : Nat → List Char → Except ParseError (Value × List Char)
  | 0, _ => .error .JSON_LENGTH
  | f + 1, s =>
    let s1 := skipWhiteSpace s.tail
    if peek s1 = ']' then .ok (Value.mk .Array (.arr .nil), s1.tail)
    else arrLoop f .nil s1
termination_by structural fuel => fuel

/-- The element loop of `Parser::parseArray` (smalljson.cc lines 200-213). -/
def arrLoop : Nat → ValueList → List Char → Except ParseError (Value × List Char)
  | 0, _, _ => .error .JSON_LENGTH
  | f + 1, data, s =>
    let s1 := skipWhiteSpace s
    match parseValueF f s1 with
    | .error e => .error e
    | .ok (value, s2) =>
      let s3 := skipWhiteSpace s2
      let data1 := ValueList.push data value
      if peek s3 = ',' then arrLoop f data1 s3.tail
      else if peek s3 = ']' then
        .ok (Value.mk .Array (.arr data1), s3.tail)
      else .error .LACK_COMMA_OR_BRACKET
termination_by structural fuel => fuel
end

/-- The fuel supplied by the entry point: every unit of fuel consumed along
a call chain corresponds to at least one consumed input character, so any
bound of at least `s.length + 1` makes the fuel-exhaustion branches
unreachable; `4 * length + 8` leaves a generous margin. -/
def rootFuel (s : List Char) : Nat :=
  4 * s.length + 8

/-- The root dispatch of `Parser::parseStart` (smalljson.cc lines 128-141):
skip leading whitespace, then require `{` or `[` (else NOT_JSON). -/
def parseRoot (s : List Char) : Except ParseError (Value × List Char) :=
  let s1 := skipWhiteSpace s
  match peek s1 with
  | '\x7b' => parseObjectF (rootFuel s) s1
  | '[' => parseArrayF (rootFuel s) s1
  | _ => .error .NOT_JSON

/-- `Parser::parseStart` (smalljson.cc lines 128-146): root dispatch, then
skip trailing whitespace and require `*cur_ == '\0'` (else ROOT_NOT_ONE).
The source compares the character under the cursor against the null
terminator rather than testing `cur_ == end_`. -/
def parseStart (s : List Char) : Except ParseError Value :=
  match parseRoot s with
  | .error e => .error e
  | .ok (v, rest) =>
    if peek (skipWhiteSpace rest) = '\x00' then .ok v
    else .error .ROOT_NOT_ONE

/-- `Parser::parse` (smalljson.h lines 206-208): construct a parser over the
buffer and run `parseStart`. -/
def parse (s : List Char) : Except ParseError Value :=
  parseStart s

/-- `Value::at(const std::string &)` (smalljson.cc lines 92, 96-98):
`to_object().at(key)`.  `none` models the raised failure: BAD_TYPE when the
tag is not Object, `std::bad_variant_access` when the variant is
desynchronized, and `std::out_of_range` from `std::map::at` when the key is
absent. -/
def Value.atKey (v : Value) (k : List Char) : Option Value :=
  match v with
  | .mk .Object (.obj o) => o.lookup k
  | _ => none

/-- `Value::at(size_t)` (smalljson.cc lines 90, 94): `to_array().at(idx)`. -/
def Value.atIdx (v : Value) (i : Nat) : Option Value :=
  match v with
  | .mk .Array (.arr a) => a.get i
  | _ => none

/-- The composition `Parser::parse(s).at(key).to_string()` used by the
spec's duplicate-key test. -/
def parseAtKeyString (s k : List Char) : Option (List Char) :=
  match parse s with
  | .error _ => none
  | .ok v =>
    match v.atKey k with
    | none => none
    | some w => Value.to_string w

/-- `Parser::parse(s).to_string()`. -/
def parseToString (s : List Char) : Option (List Char) :=
  match parse s with
  | .error _ => none
  | .ok v => Value.to_string v

/-- Observer: the String payload of a Value (the active `std::string`
alternative), used to state what the parser stored. -/
def Value.stringData : Value → Option (List Char)
  | .mk _ (.str s) => some s
  | _ => none

/-- Observer: the list of keys of an Object-variant Value, in map order. -/
def EntryList.keys : EntryList → List (List Char)
  | .nil => []
  | .cons k _ rest => k :: EntryList.keys rest

/-- Observer: the keys stored in a parsed Object value. -/
def Value.objKeys : Value → Option (List (List Char))
  | .mk _ (.obj o) => some (EntryList.keys o)
  | _ => none

/-- `Value::Value()` (smalljson.h line 30): tag Null; the variant is
default-constructed, i.e. its first alternative, the empty `std::string`. -/
def valueDefault : Value :=
  Value.mk .Null (.str [])

/-- `Value::Value(size_t)` (smalljson.h lines 32-33): tag Number, payload
`std::to_string(num)`. -/
def Value.ofNat (n : Nat) : Value :=
  Value.mk .Number (.str (Nat.repr n).toList)

/-- `Value::Value(ssize_t)` (smalljson.h lines 34-35). -/
def Value.ofInt (i : Int) : Value :=
  Value.mk .Number (.str (toString i).toList)

/-- `Value::Value(float)` / `Value::Value(double)` (smalljson.h lines
36-39): tag Number, payload the `std::to_string` rendering of the number.
The rendering of a binary float is not reproduced; the constructor is
modelled as receiving the rendered text, which is all the tag/variant
synchronization claim depends on. -/
def Value.ofFloatText (s : List Char) : Value :=
  Value.mk .Number (.str s)

/-- `Value::Value(bool)` (src/unnamed/part_001 lines 40-41): tag Boolean,
payload the literal text. -/
def Value.ofBool (b : Bool) : Value :=
  Value.mk .Boolean (.str (if b then "true".toList else "false".toList))

/-- `Value::Value(const std::string &)` / `Value::Value(const char *)`
(smalljson.h lines 39-41): tag String, payload the given text. -/
def Value.ofString (s : List Char) : Value :=
  Value.mk .String (.str s)

/-- `Value::Value(const Array &)` / `(Array &&)` (smalljson.cc lines
10-15): tag Array, variant an owned copy of the array. -/
def Value.ofArray (a : ValueList) : Value :=
  Value.mk .Array (.arr a)

/-- `Value::Value(const Object &)` / `(Object &&)` (smalljson.cc lines
17-22): tag Object, variant an owned copy of the object. -/
def Value.ofObject (o : EntryList) : Value :=
  Value.mk .Object (.obj o)

/-- The public template constructor `Value(ValueType type, Args &&...args)`
(smalljson.h lines 61-66, src/unnamed/part_001 lines 74-79): `type_` is set
to the given tag and `value_data_` is constructed from the arguments.  The
`static_assert` only requires that the variant be constructible from the
arguments — it does not relate the chosen alternative to the tag. -/
def Value.mkValue (type : ValueType) (data : ValueData) : Value :=
  Value.mk type data

/-- `Value::deepCopy` (smalljson.cc lines 30-38): rebuilds the same
alternative of the variant (copying through the owning pointer for
Array/Object). -/
def Value.deepCopy : ValueData → ValueData
  | .str s => .str s
  | .arr a => .arr a
  | .obj o => .obj o

/-- `Value::operator=(const Value &)` (smalljson.cc lines 24-28): copy the
tag, then `deepCopy` the variant. -/
def Value.assignCopy (rhs : Value) : Value :=
  match rhs with
  | .mk t d => Value.mk t (Value.deepCopy d)

/-- The synchronization invariant stated by the spec: tag
Null/Boolean/Number/String goes with the string alternative, tag Array
with the owned-Array alternative, tag Object with the owned-Object
alternative. -/
def Value.inSyncB : Value → Bool
  | .mk .Null (.str _) => true
  | .mk .Boolean (.str _) => true
  | .mk .Number (.str _) => true
  | .mk .String (.str _) => true
  | .mk .Array (.arr _) => true
  | .mk .Object (.obj _) => true
  | .mk _ _ => false

/-- Whether a parse result is a success. -/
def isOkE (r : Except ParseError Value) : Bool :=
  match r with
  | .ok _ => true
  | .error _ => false

/-- Whether a parse result is a failure with kind MISS_VALUE. -/
def isMissValueErr (r : Except ParseError Value) : Bool :=
  match r with
  | .error .MISS_VALUE => true
  | _ => false

/-- Observer: the stored String payload of the `i`-th element of a parsed
array, used to state what the parser stored for a string literal in value
position. -/
def parsedStringPayloadAt (s : List Char) (i : Nat) : Option (List Char) :=
  match parse s with
  | .error _ => none
  | .ok v => (v.atIdx i).bind Value.stringData

/-- Observer: the keys stored by a successful parse of an object. -/
def parsedObjKeys (s : List Char) : Option (List (List Char)) :=
  match parse s with
  | .error _ => none
  | .ok v => v.objKeys

/-- Induction along the spine of an `EntryList` (the mutual recursor of
the Value family specialized to a single motive). -/
theorem EntryList.spineInduction {motive : EntryList → Prop}
    (nil : motive .nil)
    (cons : ∀ k v rest, motive rest → motive (.cons k v rest)) :
    ∀ d, motive d
  | .nil => nil
  | .cons k v rest => cons k v rest (EntryList.spineInduction nil cons rest)

/-- Helper: `ltKey` is irreflexive. -/
theorem ltKey_irrefl : ∀ a, ltKey a a = false := by
  intro a
  induction a with
  | nil => rfl
  | cons x as ih =>
    have hx : ¬ (x.val < x.val) := by
      intro hcon
      have hn : x.val.toNat < x.val.toNat := hcon
      omega
    simp [ltKey, hx, ih]

/-- Helper: `ltKey` is asymmetric. -/
theorem ltKey_asymm : ∀ a b, ltKey a b = true → ltKey b a = false := by
  intro a
  induction a with
  | nil =>
    intro b h
    cases b with
    | nil => simp [ltKey] at h
    | cons y bs => rfl
  | cons x as ih =>
    intro b h
    cases b with
    | nil => simp [ltKey] at h
    | cons y bs =>
      simp only [ltKey] at h ⊢
      by_cases hxy : x.val < y.val
      · have hyx : ¬ y.val < x.val := by
          have h1 : x.val.toNat < y.val.toNat := hxy
          intro hcon
          have h2 : y.val.toNat < x.val.toNat := hcon
          omega
        rw [if_neg hyx, if_pos hxy]
      · rw [if_neg hxy] at h
        by_cases hyx : y.val < x.val
        · rw [if_pos hyx] at h
          exact absurd h (by simp)
        · rw [if_neg hyx] at h
          rw [if_neg hyx, if_neg hxy]
          exact ih bs h

/-- Helper: `ltKey` is transitive. -/
theorem ltKey_trans : ∀ a b c, ltKey a b = true → ltKey b c = true →
    ltKey a c = true := by
  intro a
  induction a with
  | nil =>
    intro b c h1 h2
    cases b with
    | nil => simp [ltKey] at h1
    | cons y bs =>
      cases c with
      | nil => simp [ltKey] at h2
      | cons z cs => rfl
  | cons x as ih =>
    intro b c h1 h2
    cases b with
    | nil => simp [ltKey] at h1
    | cons y bs =>
      cases c with
      | nil => simp [ltKey] at h2
      | cons z cs =>
        simp only [ltKey] at h1 h2 ⊢
        by_cases hxy : x.val < y.val <;> by_cases hyz : y.val < z.val
        · have hxz : x.val < z.val := by
            have hn1 : x.val.toNat < y.val.toNat := hxy
            have hn2 : y.val.toNat < z.val.toNat := hyz
            show x.val.toNat < z.val.toNat
            omega
          rw [if_pos hxz]
        · rw [if_neg hyz] at h2
          by_cases hzy : z.val < y.val
          · rw [if_pos hzy] at h2
            exact absurd h2 (by simp)
          · have hxz : x.val < z.val := by
              have hn1 : x.val.toNat < y.val.toNat := hxy
              have hn2 : ¬ y.val.toNat < z.val.toNat := hyz
              have hn3 : ¬ z.val.toNat < y.val.toNat := hzy
              show x.val.toNat < z.val.toNat
              omega
            rw [if_pos hxz]
        · rw [if_neg hxy] at h1
          by_cases hyx : y.val < x.val
          · rw [if_pos hyx] at h1
            exact absurd h1 (by simp)
          · have hxz : x.val < z.val := by
              have hn1 : ¬ x.val.toNat < y.val.toNat := hxy
              have hn2 : ¬ y.val.toNat < x.val.toNat := hyx
              have hn3 : y.val.toNat < z.val.toNat := hyz
              show x.val.toNat < z.val.toNat
              omega
            rw [if_pos hxz]
        · rw [if_neg hxy] at h1
          rw [if_neg hyz] at h2
          by_cases hyx : y.val < x.val
          · rw [if_pos hyx] at h1
            exact absurd h1 (by simp)
          · by_cases hzy : z.val < y.val
            · rw [if_pos hzy] at h2
              exact absurd h2 (by simp)
            · rw [if_neg hyx] at h1
              rw [if_neg hzy] at h2
              have hxz : ¬ x.val < z.val := by
                have hn1 : ¬ x.val.toNat < y.val.toNat := hxy
                have hn2 : ¬ y.val.toNat < x.val.toNat := hyx
                have hn3 : ¬ y.val.toNat < z.val.toNat := hyz
                have hn4 : ¬ z.val.toNat < y.val.toNat := hzy
                intro hcon
                have hn5 : x.val.toNat < z.val.toNat := hcon
                omega
              have hzx : ¬ z.val < x.val := by
                have hn1 : ¬ x.val.toNat < y.val.toNat := hxy
                have hn2 : ¬ y.val.toNat < x.val.toNat := hyx
                have hn3 : ¬ y.val.toNat < z.val.toNat := hyz
                have hn4 : ¬ z.val.toNat < y.val.toNat := hzy
                intro hcon
                have hn5 : z.val.toNat < x.val.toNat := hcon
                omega
              rw [if_neg hxz, if_neg hzx]
              exact ih bs cs h1 h2

/-- Helper: a key found in a list all of whose keys are above `k0` is
itself above `k0`. -/
theorem ltAll_lookup : ∀ (d : EntryList) k0 k w, EntryList.ltAll k0 d = true →
    EntryList.lookup d k = some w → ltKey k0 k = true := by
  intro d
  induction d using EntryList.spineInduction with
  | nil =>
    intro k0 k w _ hl
    simp [EntryList.lookup] at hl
  | cons k1 v1 rest ih =>
    intro k0 k w hall hl
    simp only [EntryList.ltAll, Bool.and_eq_true] at hall
    simp only [EntryList.lookup] at hl
    split_ifs at hl with hk
    · subst hk
      exact hall.1
    · exact ih k0 k w hall.2 hl

/-- Helper: `emplace` preserves an upper key bound when the new key also
respects it. -/
theorem ltAll_emplace : ∀ (d : EntryList) k0 k v,
    EntryList.ltAll k0 d = true → ltKey k0 k = true →
    EntryList.ltAll k0 (EntryList.emplace d k v) = true := by
  intro d
  induction d using EntryList.spineInduction with
  | nil =>
    intro k0 k v _ hk
    simp [EntryList.emplace, EntryList.ltAll, hk]
  | cons k1 v1 rest ih =>
    intro k0 k v hall hk
    simp only [EntryList.ltAll, Bool.and_eq_true] at hall
    simp only [EntryList.emplace]
    split_ifs with h1 h2
    · simp [EntryList.ltAll, hk, hall.1, hall.2]
    · simp [EntryList.ltAll, hall.1, ih k0 k v hall.2 hk]
    · simp [EntryList.ltAll, hall.1, hall.2]

/-- Helper: an upper key bound transfers down along `ltKey`. -/
theorem ltAll_of_ltKey : ∀ (d : EntryList) k k1, ltKey k k1 = true →
    EntryList.ltAll k1 d = true → EntryList.ltAll k d = true := by
  intro d
  induction d using EntryList.spineInduction with
  | nil => intro k k1 _ _; rfl
  | cons k2 v2 rest ih =>
    intro k k1 hk hall
    simp only [EntryList.ltAll, Bool.and_eq_true] at hall ⊢
    exact ⟨ltKey_trans k k1 k2 hk hall.1, ih k k1 hk hall.2⟩

/-- Helper: `emplace` preserves the `std::map` sortedness invariant, so
every map the parser builds (from the empty map, by `emplace` only) is
sorted. -/
theorem sortedB_emplace : ∀ (d : EntryList) k v,
    EntryList.sortedB d = true →
    EntryList.sortedB (EntryList.emplace d k v) = true := by
  intro d
  induction d using EntryList.spineInduction with
  | nil =>
    intro k v _
    simp [EntryList.emplace, EntryList.sortedB, EntryList.ltAll]
  | cons k1 v1 rest ih =>
    intro k v hs
    simp only [EntryList.sortedB, Bool.and_eq_true] at hs
    simp only [EntryList.emplace]
    split_ifs with h1 h2
    · have hka : EntryList.ltAll k (EntryList.cons k1 v1 rest) = true := by
        simp only [EntryList.ltAll, Bool.and_eq_true]
        exact ⟨h1, ltAll_of_ltKey rest k k1 h1 hs.1⟩
      simp only [EntryList.sortedB, Bool.and_eq_true]
      exact ⟨hka, hs.1, hs.2⟩
    · simp only [EntryList.sortedB, Bool.and_eq_true]
      exact ⟨ltAll_emplace rest k1 k v hs.1 h2, ih k v hs.2⟩
    · simp only [EntryList.sortedB, Bool.and_eq_true]
      exact ⟨hs.1, hs.2⟩

/-- Helper: on a sorted map, `emplace` with a key that is already present
leaves the map completely unchanged — `std::map::emplace` never
overwrites, so the first-stored binding survives every later duplicate. -/
theorem emplace_no_overwrite : ∀ (d : EntryList) k v w,
    EntryList.sortedB d = true → EntryList.lookup d k = some w →
    EntryList.emplace d k v = d := by
  intro d
  induction d using EntryList.spineInduction with
  | nil =>
    intro k v w _ hl
    simp [EntryList.lookup] at hl
  | cons k1 v1 rest ih =>
    intro k v w hs hl
    simp only [EntryList.sortedB, Bool.and_eq_true] at hs
    simp only [EntryList.lookup] at hl
    split_ifs at hl with hk
    · subst hk
      simp [EntryList.emplace, ltKey_irrefl]
    · have hlt : ltKey k1 k = true := ltAll_lookup rest k1 k w hs.1 hl
      have hnlt : ¬ (ltKey k k1 = true) := by
        simp [ltKey_asymm k1 k hlt]
      simp only [EntryList.emplace]
      rw [if_neg hnlt, if_pos hlt, ih k v w hs.2 hl]

/-- Helper: the object-member loop only grows its accumulator through
`emplace`, so a sorted accumulator yields a sorted parsed object. -/
theorem objLoop_sorted : ∀ fuel data s v rest,
    EntryList.sortedB data = true → objLoop fuel data s = .ok (v, rest) →
    ∃ o, v = Value.mk .Object (.obj o) ∧ EntryList.sortedB o = true := by
  intro fuel
  induction fuel with
  | zero =>
    intro data s v rest _ h
    simp [objLoop] at h
  | succ f ih =>
    intro data s v rest hs h
    simp only [objLoop] at h
    split at h
    · simp at h
    · split_ifs at h with hcolon
      split at h
      · simp at h
      · split_ifs at h with hcomma
        · exact ih _ _ v rest
            (sortedB_emplace data _ _ hs) h
        · simp only [Except.ok.injEq, Prod.mk.injEq] at h
          exact ⟨_, h.1.symm, sortedB_emplace data _ _ hs⟩

/-- Helper: every object `Parser::parseObject` returns carries a sorted
map (it is either the empty object or built by `objLoop` from the empty
accumulator). -/
theorem parseObjectF_sorted : ∀ fuel s v rest,
    parseObjectF fuel s = .ok (v, rest) →
    ∃ o, v = Value.mk .Object (.obj o) ∧ EntryList.sortedB o = true := by
  intro fuel
  cases fuel with
  | zero =>
    intro s v rest h
    simp [parseObjectF] at h
  | succ f =>
    intro s v rest h
    simp only [parseObjectF] at h
    split_ifs at h with hbr
    · simp only [Except.ok.injEq, Prod.mk.injEq] at h
      exact ⟨EntryList.nil, h.1.symm, rfl⟩
    · exact objLoop_sorted f EntryList.nil _ v rest rfl h

/-- C1, counterexample: the claim `parse("\x7ba:1,a:2\x7d").at("a").to_string()
equals "2"` is false — the parser stores duplicate keys with
`std::map::emplace`, which keeps the already-present entry, so the result
is `"1"`. -/
theorem c1_dup_key_counterexample :
    parseAtKeyString ("\x7b\"a\":1,\"a\":2\x7d".toList) ("a".toList) ≠
      some ("2".toList) := by
  decide

/-- C1, amended: when the same object key occurs more than once, parse
keeps the value of the FIRST occurrence, universally: on any sorted map,
`EntryList.emplace` (the model of `std::map::emplace`, by which
`parseObject` inserts every member) leaves the map completely unchanged
when the key is already present — so the first-stored binding survives
every later duplicate; every object the parser produces is such a sorted
map; and on the spec's duplicate-key input the surviving value prints as
`"1"`. -/
theorem c1_dup_key_first_wins :
    (∀ d k v w, EntryList.sortedB d = true → EntryList.lookup d k = some w →
        EntryList.emplace d k v = d) ∧
      (∀ fuel s v rest, parseObjectF fuel s = .ok (v, rest) →
        ∃ o, v = Value.mk .Object (.obj o) ∧ EntryList.sortedB o = true) ∧
      parseAtKeyString ("\x7b\"a\":1,\"a\":2\x7d".toList) ("a".toList) =
        some ("1".toList) ∧
      parsedObjKeys ("\x7b\"a\":1,\"a\":2\x7d".toList) =
        some (("a".toList) :: []) :=
  ⟨emplace_no_overwrite, parseObjectF_sorted, rfl, rfl⟩

/-- C1, witness for `c1_dup_key_first_wins`: the singleton map holding
`"a" ↦ 1` is sorted and contains `"a"`, and emplacing `"a" ↦ 2` into it
leaves it unchanged; the object parsed from the duplicate-key input is
exactly that map, and it is sorted. -/
theorem c1_dup_key_first_wins_witness :
    (EntryList.sortedB
          (EntryList.cons ("a".toList) (Value.mk .Number (.str ("1".toList)))
            EntryList.nil) = true ∧
        EntryList.lookup
            (EntryList.cons ("a".toList) (Value.mk .Number (.str ("1".toList)))
              EntryList.nil) ("a".toList) =
          some (Value.mk .Number (.str ("1".toList))) ∧
        EntryList.emplace
            (EntryList.cons ("a".toList) (Value.mk .Number (.str ("1".toList)))
              EntryList.nil) ("a".toList)
            (Value.mk .Number (.str ("2".toList))) =
          EntryList.cons ("a".toList) (Value.mk .Number (.str ("1".toList)))
            EntryList.nil) ∧
      parseObjectF 20 ("\x7b\"a\":1,\"a\":2\x7d".toList) =
          .ok (Value.mk .Object (.obj
            (EntryList.cons ("a".toList) (Value.mk .Number (.str ("1".toList)))
              EntryList.nil)), []) ∧
      (∃ o, Value.mk .Object (.obj
            (EntryList.cons ("a".toList) (Value.mk .Number (.str ("1".toList)))
              EntryList.nil)) = Value.mk .Object (.obj o) ∧
          EntryList.sortedB o = true) :=
  ⟨⟨rfl, rfl, c1_dup_key_first_wins.1 _ _ _ _ rfl rfl⟩, rfl,
    c1_dup_key_first_wins.2.1 20 ("\x7b\"a\":1,\"a\":2\x7d".toList) _ _ rfl⟩

/-- C2: evaluation of the code at the failing inputs.  `Object::to_string`
and `Array::to_string` run `pop_back()` unconditionally; on an empty
container the popped character is the opening brace/bracket itself, so
`parse("\x7b\x7d").to_string()` is `"\x7d"` (not `"\x7b\x7d"`) and
`parse("[]").to_string()` is `"]"` (not `"[]"`). -/
theorem c2_empty_container_render :
    parseToString ("\x7b\x7d".toList) = some ("\x7d".toList) ∧
      parseToString ("[]".toList) = some ("]".toList) := by
  exact ⟨rfl, rfl⟩

/-- C3, counterexample: for the accepted input `["a\nb"]` the String
payload stored by the parser is the RAW text `a\nb` (backslash and `n` as
two characters), which differs from its unescaped form — so the payload is
not the unescaped text. -/
theorem c3_string_value_counterexample :
    parsedStringPayloadAt ("[\"a\\nb\"]".toList) 0 =
        some ('a' :: '\\' :: 'n' :: 'b' :: []) ∧
      unescapeJson ('a' :: '\\' :: 'n' :: 'b' :: []) ≠
        ('a' :: '\\' :: 'n' :: 'b' :: []) := by
  exact ⟨rfl, by decide⟩

/-- C3, amended: for every string literal accepted in value position the
stored String payload is the raw (still-escaped) substring between the
quotes, unchanged — `Parser::parseString` stores the result of
`parseRawString` directly and never calls `unescapeJson` (only object keys
are unescaped, in `parseObject`). -/
theorem c3_string_value_raw :
    (∀ fuel s, peek s = '"' → parseValueF (fuel + 1) s = parseString s) ∧
      (∀ s raw rest, parseRawString s = .ok (raw, rest) →
        parseString s = .ok (Value.mk .String (.str raw), rest)) := by
  constructor
  · intro fuel s h
    unfold parseValueF
    rw [h]
    rfl
  · intro s raw rest h
    unfold parseString
    rw [h]

/-- C3, witness for `c3_string_value_raw` at the concrete input `"ab"]`. -/
theorem c3_string_value_raw_witness :
    parseValueF 6 ('"' :: 'a' :: 'b' :: '"' :: ']' :: []) =
        parseString ('"' :: 'a' :: 'b' :: '"' :: ']' :: []) ∧
      parseString ('"' :: 'a' :: 'b' :: '"' :: ']' :: []) =
        .ok (Value.mk .String (.str ('a' :: 'b' :: [])), ']' :: []) :=
  ⟨c3_string_value_raw.1 5 ('"' :: 'a' :: 'b' :: '"' :: ']' :: []) rfl,
    c3_string_value_raw.2 ('"' :: 'a' :: 'b' :: '"' :: ']' :: []) ('a' :: 'b' :: [])
      (']' :: []) rfl⟩

/-- C4, counterexample: serializing the String-variant Value with payload a
single newline yields the newline verbatim between the quotes, not the
two-character escape sequence — `Value::to_string` does not call
`escapeJson`. -/
theorem c4_to_string_counterexample :
    Value.to_string (Value.mk .String (.str ('\n' :: []))) ≠
      some ('"' :: (escapeJson ('\n' :: []) ++ ['"'])) := by
  decide

/-- C4, amended: for every Value whose active variant is String with
payload `s`, `to_string()` returns the quote character, then `s` verbatim
(no escaping is applied), then the quote character; `escapeJson` is applied
only to object keys, inside `Object::to_string`. -/
theorem c4_string_to_string_verbatim :
    ∀ s, Value.to_string (Value.mk .String (.str s)) =
      some ('"' :: (s ++ ['"'])) :=
  fun _ => rfl

/-- C6, counterexample: for the object input whose single key is written
`"\u0041"`, the stored key is NOT the six characters `\u0041`: the key goes
through `unescapeJson`, whose default branch rewrites the two characters
`\u` into a newline, leaving newline followed by `0041`. -/
theorem c6_u_escape_counterexample :
    parsedObjKeys ("\x7b\"\\u0041\":true\x7d".toList) ≠
      some (("\\u0041".toList) :: []) := by
  decide

/-- C6, amended: a `\u` escape is accepted syntactically and is never
decoded to a code point, but it only passes through unchanged in string
VALUES (stored raw by `parseString`); in object KEYS `unescapeJson`
replaces the two characters `\u` by a newline (its default replacement), so
the stored key is a newline followed by the four hex digits. -/
theorem c6_u_escape_behavior :
    (∀ ds, unescapeJson ('\\' :: 'u' :: ds) = '\n' :: unescapeJson ds) ∧
      parsedStringPayloadAt ("[\"\\u0041\"]".toList) 0 =
        some ('\\' :: 'u' :: '0' :: '0' :: '4' :: '1' :: []) ∧
      parsedObjKeys ("\x7b\"\\u0041\":true\x7d".toList) =
        some (('\n' :: '0' :: '0' :: '4' :: '1' :: []) :: []) := by
  refine ⟨fun ds => rfl, rfl, rfl⟩

/-- C9, counterexample: the public template constructor
`Value(ValueType, Args...)` sets the tag and the variant independently;
invoking it with tag Array and a string payload produces a Value whose
recorded tag does not match the active variant. -/
theorem c9_sync_counterexample :
    Value.inSyncB (Value.mkValue .Array (.str ('x' :: []))) = false :=
  rfl

/-- C9, amended: every dedicated public constructor produces a Value whose
tag matches its active variant, and copy assignment preserves the match;
only the generic `(ValueType, payload)` template constructor fails to
enforce it (see the counterexample). -/
theorem c9_sync_constructors :
    Value.inSyncB valueDefault = true ∧
      (∀ n, Value.inSyncB (Value.ofNat n) = true) ∧
      (∀ i, Value.inSyncB (Value.ofInt i) = true) ∧
      (∀ s, Value.inSyncB (Value.ofFloatText s) = true) ∧
      (∀ b, Value.inSyncB (Value.ofBool b) = true) ∧
      (∀ s, Value.inSyncB (Value.ofString s) = true) ∧
      (∀ a, Value.inSyncB (Value.ofArray a) = true) ∧
      (∀ o, Value.inSyncB (Value.ofObject o) = true) ∧
      (∀ v, Value.inSyncB v = true →
        Value.inSyncB (Value.assignCopy v) = true) := by
  refine ⟨rfl, fun n => rfl, fun i => rfl, fun s => rfl, fun b => rfl,
    fun s => rfl, fun a => rfl, fun o => rfl, ?_⟩
  intro v h
  match v with
  | .mk t (.str s) => exact h
  | .mk t (.arr a) => exact h
  | .mk t (.obj o) => exact h

/-- C9, witness for `c9_sync_constructors`: copy assignment applied to a
concrete synchronized Value. -/
theorem c9_sync_constructors_witness :
    Value.inSyncB (Value.assignCopy (Value.ofString ('a' :: []))) = true :=
  c9_sync_constructors.2.2.2.2.2.2.2.2 (Value.ofString ('a' :: [])) rfl

/-- C7: whenever the first non-whitespace character of the input is neither
an opening brace nor an opening bracket, parse fails with NOT_JSON; in
particular the bare scalars `42`, `"x"` and `true` are rejected at the
root. -/
theorem c7_root_restriction :
    (∀ s c, (skipWhiteSpace s).head? = some c → c ≠ '\x7b' → c ≠ '[' →
        parse s = .error .NOT_JSON) ∧
      parse ("42".toList) = .error .NOT_JSON ∧
      parse ("\"x\"".toList) = .error .NOT_JSON ∧
      parse ("true".toList) = .error .NOT_JSON := by
  refine ⟨?_, rfl, rfl, rfl⟩
  intro s c h h1 h2
  have hroot : parseRoot s = .error .NOT_JSON := by
    cases hs : skipWhiteSpace s with
    | nil => rw [hs] at h; exact absurd h (by simp)
    | cons a t =>
      rw [hs] at h
      have hac : a = c := by
        simpa using h
      subst hac
      unfold parseRoot
      rw [hs]
      show (match peek (a :: t) with
        | '\x7b' => parseObjectF (rootFuel s) (a :: t)
        | '[' => parseArrayF (rootFuel s) (a :: t)
        | _ => Except.error ParseError.NOT_JSON) = Except.error ParseError.NOT_JSON
      have hpa : peek (a :: t) = a := rfl
      rw [hpa]
      split
      · exact absurd rfl h1
      · exact absurd rfl h2
      · rfl
  unfold parse parseStart
  rw [hroot]

/-- C7, witness for `c7_root_restriction` at the input `7`. -/
theorem c7_root_restriction_witness :
    parse ('7' :: []) = .error .NOT_JSON :=
  c7_root_restriction.1 ('7' :: []) '7' rfl (by decide) (by decide)

/-- C8, counterexample: for the input `\x7b\x7d` followed by a NUL byte and
an `x`, the root object parses with remainder `NUL x` — which is not
whitespace — yet parse succeeds, because `parseStart` compares the
character under the cursor with the null terminator instead of testing
that the cursor is at end-of-input. -/
theorem c8_trailing_counterexample :
    parseRoot ("\x7b\x7d\x00x".toList) =
        .ok (Value.mk .Object (.obj .nil), '\x00' :: 'x' :: []) ∧
      isOkE (parse ("\x7b\x7d\x00x".toList)) = true ∧
      List.all ('\x00' :: 'x' :: []) isWS = false :=
  ⟨rfl, rfl, rfl⟩

/-- C8, amended: after the root value, parse succeeds exactly when the
first character after the trailing whitespace is the NUL terminator —
i.e. the cursor is at end-of-input or at an embedded NUL byte; any other
remaining character makes parse fail with ROOT_NOT_ONE (so for NUL-free
inputs the claim holds as stated, e.g. `\x7b\x7d x` fails with
ROOT_NOT_ONE). -/
theorem c8_trailing_nul_check :
    (∀ s v rest, parseRoot s = .ok (v, rest) →
        (isOkE (parse s) = true ↔ peek (skipWhiteSpace rest) = '\x00') ∧
          (peek (skipWhiteSpace rest) ≠ '\x00' →
            parse s = .error .ROOT_NOT_ONE)) ∧
      parse ("\x7b\x7d x".toList) = .error .ROOT_NOT_ONE := by
  refine ⟨?_, rfl⟩
  intro s v rest h
  constructor
  · unfold parse parseStart
    rw [h]
    by_cases hc : peek (skipWhiteSpace rest) = '\x00'
    · simp [hc, isOkE]
    · simp [hc, isOkE]
  · intro hc
    unfold parse parseStart
    rw [h]
    simp [hc]

/-- C8, witness for `c8_trailing_nul_check` at the input `\x7b\x7d x`. -/
theorem c8_trailing_nul_check_witness :
    parseRoot ("\x7b\x7d x".toList) =
        .ok (Value.mk .Object (.obj .nil), ' ' :: 'x' :: []) ∧
      parse ("\x7b\x7d x".toList) = .error .ROOT_NOT_ONE :=
  ⟨rfl,
    (c8_trailing_nul_check.1 ("\x7b\x7d x".toList)
          (Value.mk .Object (.obj .nil)) (' ' :: 'x' :: []) rfl).2
      (by decide)⟩

/-- Helper: decoding the escape image of one character peels that
character off, whatever follows. -/
theorem unescape_escChar (c : Char) (t : List Char) :
    unescapeJson (escChar c ++ t) = c :: unescapeJson t := by
  unfold escChar
  split_ifs with h1 h2 h3 h4 h5 h6
  · subst h1; rfl
  · subst h2; rfl
  · subst h3; rfl
  · subst h4; rfl
  · subst h5; rfl
  · subst h6; rfl
  · show unescapeJson (c :: t) = c :: unescapeJson t
    rw [unescapeJson.eq_def]
    simp [h3]

/-- Helper: `unescapeJson` inverts `escapeJson` on every string.  (The
escaped image contains a backslash only as the first character of a
produced two-character sequence, and each sequence decodes back to the
original character; a form feed is never escaped — the source's
fall-through — but it also needs no decoding, so the round trip still
holds.) -/
theorem unescape_escape (s : List Char) : unescapeJson (escapeJson s) = s := by
  induction s with
  | nil => rfl
  | cons c rest ih =>
    have hcons : escapeJson (c :: rest) = escChar c ++ escapeJson rest := by
      simp [escapeJson]
    rw [hcons, unescape_escChar, ih]

/-- C5: for every string made of ordinary characters (neither backslash
nor double quote) and the seven recognized control characters,
`unescapeJson (escapeJson s) = s`. -/
theorem c5_escape_roundtrip :
    ∀ s : List Char,
      (∀ c ∈ s, (c ≠ '\\' ∧ c ≠ '"') ∨
        c ∈ ['\n', '\t', '\\', '\x08', '\r', '"', '\x0C']) →
      unescapeJson (escapeJson s) = s :=
  fun s _ => unescape_escape s

/-- C5, witness for `c5_escape_roundtrip` on a string exercising ordinary
characters, a newline, a backslash, a quote and a form feed. -/
theorem c5_escape_roundtrip_witness :
    (∀ c ∈ ['a', '\n', '\\', '"', '\x0C'], (c ≠ '\\' ∧ c ≠ '"') ∨
        c ∈ ['\n', '\t', '\\', '\x08', '\r', '"', '\x0C']) ∧
      unescapeJson (escapeJson ['a', '\n', '\\', '"', '\x0C']) =
        ['a', '\n', '\\', '"', '\x0C'] :=
  ⟨by decide, c5_escape_roundtrip ['a', '\n', '\\', '"', '\x0C'] (by decide)⟩

/-- Helper: the string-literal scanner only fails with BAD_ESCAPE or
JSON_LENGTH, never MISS_VALUE. -/
theorem rawStringLoop_noMV :
    ∀ n s acc, s.length ≤ n →
      rawStringLoop acc s ≠ Except.error ParseError.MISS_VALUE := by
  intro n
  induction n with
  | zero =>
    intro s acc h
    have hs : s = [] := List.length_eq_zero.mp (Nat.le_zero.mp h)
    subst hs
    simp [rawStringLoop]
  | succ n ih =>
    intro s acc h hc
    cases s with
    | nil => simp [rawStringLoop] at hc
    | cons c rest =>
      rw [rawStringLoop.eq_def] at hc
      simp only [] at hc
      split_ifs at hc with hbs hq
      · split at hc
        · simp at hc
        · split_ifs at hc with hd
          · refine ih _ _ ?_ hc
            simp at h
            omega
          · simp at hc
      · split at hc
        · simp at hc
        · simp at hc
      · refine ih _ _ ?_ hc
        simp at h
        omega

/-- Helper: `parseRawString` never fails with MISS_VALUE. -/
theorem parseRawString_noMV (s : List Char) :
    parseRawString s ≠ Except.error ParseError.MISS_VALUE := by
  unfold parseRawString
  split_ifs with h
  · exact rawStringLoop_noMV s.tail.length s.tail [] le_rfl
  · simp

/-- Helper: `parseString` never fails with MISS_VALUE. -/
theorem parseString_noMV (s : List Char) :
    parseString s ≠ Except.error ParseError.MISS_VALUE := by
  intro hc
  unfold parseString at hc
  split at hc
  · rename_i e heq
    injection hc with he
    subst he
    exact parseRawString_noMV s heq
  · simp at hc

/-- Helper: `parseBoolean` never fails with MISS_VALUE. -/
theorem parseBoolean_noMV (s : List Char) :
    parseBoolean s ≠ Except.error ParseError.MISS_VALUE := by
  unfold parseBoolean
  split_ifs <;> simp

/-- Helper: `parseNull` never fails with MISS_VALUE. -/
theorem parseNull_noMV (s : List Char) :
    parseNull s ≠ Except.error ParseError.MISS_VALUE := by
  unfold parseNull
  split_ifs <;> simp

/-- Helper: the exponent arm of `parseNumber` never fails with
MISS_VALUE. -/
theorem parseNumberExp_noMV (s s3 : List Char) :
    parseNumberExp s s3 ≠ Except.error ParseError.MISS_VALUE := by
  intro hc
  unfold parseNumberExp at hc
  split_ifs at hc
  all_goals try simp at hc
  all_goals split at hc
  all_goals simp at hc

/-- Helper: `parseNumber` never fails with MISS_VALUE. -/
theorem parseNumber_noMV (s : List Char) :
    parseNumber s ≠ Except.error ParseError.MISS_VALUE := by
  intro hc
  unfold parseNumber at hc
  split_ifs at hc
  all_goals try simp at hc
  all_goals try split at hc
  all_goals try simp at hc
  all_goals try split at hc
  all_goals try simp at hc
  all_goals try split at hc
  all_goals
    first
    | exact parseNumberExp_noMV _ _ hc
    | simp at hc

/-- Helper: none of the fueled recursive parsing functions ever fails with
MISS_VALUE, at any fuel. -/
theorem parseF_noMV :
    ∀ fuel,
      (∀ s, parseValueF fuel s ≠ Except.error ParseError.MISS_VALUE) ∧
        (∀ s, parseObjectF fuel s ≠ Except.error ParseError.MISS_VALUE) ∧
        (∀ data s, objLoop fuel data s ≠ Except.error ParseError.MISS_VALUE) ∧
        (∀ s, parseArrayF fuel s ≠ Except.error ParseError.MISS_VALUE) ∧
        (∀ data s, arrLoop fuel data s ≠ Except.error ParseError.MISS_VALUE) := by
  intro fuel
  induction fuel with
  | zero =>
    refine ⟨?_, ?_, ?_, ?_, ?_⟩ <;> intros <;>
      simp [parseValueF, parseObjectF, objLoop, parseArrayF, arrLoop]
  | succ f ih =>
    obtain ⟨ihV, ihO, ihOL, ihA, ihAL⟩ := ih
    refine ⟨?_, ?_, ?_, ?_, ?_⟩
    · intro s hc
      simp only [parseValueF] at hc
      split at hc
      · exact parseBoolean_noMV s hc
      · exact parseBoolean_noMV s hc
      · exact parseNull_noMV s hc
      · exact parseString_noMV s hc
      · exact ihA s hc
      · exact ihO s hc
      · split_ifs at hc
        · exact parseNumber_noMV s hc
        · simp at hc
    · intro s hc
      simp only [parseObjectF] at hc
      split_ifs at hc
      exact ihOL _ _ hc
    · intro data s hc
      simp only [objLoop] at hc
      split at hc
      · rename_i e heq
        injection hc with he
        subst he
        exact parseRawString_noMV _ heq
      · split_ifs at hc
        · split at hc
          · rename_i e2 heq2
            injection hc with he2
            subst he2
            exact ihV _ heq2
          · split_ifs at hc
            · exact ihOL _ _ hc
            · simp at hc
        · simp at hc
    · intro s hc
      simp only [parseArrayF] at hc
      split_ifs at hc
      exact ihAL _ _ hc
    · intro data s hc
      simp only [arrLoop] at hc
      split at hc
      · rename_i e heq
        injection hc with he
        subst he
        exact ihV _ heq
      · split_ifs at hc
        · exact ihAL _ _ hc
        · simp at hc

/-- Helper: the root dispatch never fails with MISS_VALUE. -/
theorem parseRoot_noMV (s : List Char) :
    parseRoot s ≠ Except.error ParseError.MISS_VALUE := by
  intro hc
  simp only [parseRoot] at hc
  split at hc
  · exact (parseF_noMV (rootFuel s)).2.1 _ hc
  · exact (parseF_noMV (rootFuel s)).2.2.2.1 _ hc
  · simp at hc

/-- C10: for every input string, parse never fails with the error kind
MISS_VALUE — the constant is declared in the ParseError taxonomy but no
parser code path raises it, so parse only fails with the other kinds. -/
theorem c10_no_miss_value : ∀ s, isMissValueErr (parse s) = false := by
  intro s
  unfold parse parseStart
  cases h : parseRoot s with
  | error e =>
    have he : e ≠ ParseError.MISS_VALUE := by
      intro hc
      rw [hc] at h
      exact parseRoot_noMV s h
    cases e <;> first | rfl | exact absurd rfl he
  | ok p =>
    obtain ⟨v, rest⟩ := p
    by_cases hnul : peek (skipWhiteSpace rest) = '\x00' <;>
      simp [isMissValueErr, hnul]

end Smalljson
